import Mathlib

/-!
# Verification of the embedded vector store

A shallow embedding, in Lean 4, of the vector-store core of the repository
(`src/scripts/vectordb.py`, `src/scripts/similarity.py`), together with proofs
settling the specification claims about it.

## Modelling conventions

* **Text at word level.**  The chunker (`VectorDatabase.__chunk`) only ever
  observes a string through `text.split('\n\n')` (paragraph decomposition),
  `para.split()` (whitespace word decomposition), `p.strip()` and
  `' '.join(...)`.  We therefore represent a paragraph by its list of
  whitespace-separated words (`List String`) and a text by its list of
  paragraphs (`List (List String)`).  Under this representation:
  `para.split()` is the paragraph itself, `' '.join(parts)` is
  `List.flatten` (joining word lists with a single space and re-splitting on
  whitespace returns the concatenation of the word lists), and a paragraph
  whose `strip()` is empty is exactly a paragraph with the empty word list
  (both mean: no non-whitespace character).  Since `'\n\n'` is itself
  whitespace, the word sequence of the whole text is the concatenation
  (`flatten`) of the word sequences of its paragraphs.  Python's truth test
  `if current_para:` on a list is modelled as `current_para ≠ []`.
* **Floats as reals.**  Embedding coordinates and similarity scores are
  modelled as real numbers (exact arithmetic).  The one place where IEEE
  behaviour itself is the subject of a claim — division by a zero norm
  producing NaN — is modelled separately (`similarity_scoreF`) with `none`
  standing for NaN.
* **State passing.**  The SQLite `VECTORS` table and the two blob directories
  (`data/chunks`, `data/raw`) are modelled as a record `DB`; `put` and
  `delete` are state transformers, and `search` is translated with its final
  state made explicit (`searchOp`) so that frame claims are expressible.
* **External collaborators.**  The embedding provider (`Embedder.embed`) is a
  function parameter; the `uuid.uuid4()` chunk-identifier supply is a list
  parameter (theorems that need it assume the supplied identifiers are fresh
  and pairwise distinct, which is what `uuid4` provides).
-/

/-! ## The chunker (`src/scripts/vectordb.py`, `VectorDatabase.__chunk`) -/

/-- `CHUNK_SIZE = 1000` from `src/scripts/vectordb.py` line 11. -/
def CHUNK_SIZE : Nat := 1000

/-- The slice loop of `split_large_paragraph`
(`for i in range(0, total_words, target_size): words[i:min(i+target_size, total_words)]`):
since the step equals the slice width, the loop partitions `l` into
consecutive groups of `t` words, the last group possibly shorter.  Structural
recursion on a fuel bounded below by `l.length`; with `t = 0` Python's
`range` would raise `ValueError`, and the fuel makes the function total there
(that branch is unreachable from the call site, where `t ≥ 1`). -/
def sliceGo (t : Nat) : Nat → List String → List (List String)
  | _, [] => []
  | 0, _ :: _ => []
  | fuel + 1, w :: ws => (w :: ws).take t :: sliceGo t fuel ((w :: ws).drop t)

/-- Slices `l` into consecutive groups of `t` elements (fuel instantiated). -/
def sliceBy (t : Nat) (l : List String) : List (List String) :=
  sliceGo t l.length l

/-- `split_large_paragraph` (`src/scripts/vectordb.py` lines 194–206), at word
level: `num_chunks = ceil(total/CHUNK_SIZE)` via the `(a + b - 1) // b` idiom,
`target_size = total // num_chunks`, then the slice loop. -/
def split_large_paragraph (paragraph : List String) : List (List String) :=
  let total_words := paragraph.length
  let num_chunks := (total_words + CHUNK_SIZE - 1) / CHUNK_SIZE
  let target_size := total_words / num_chunks
  sliceBy target_size paragraph

/-- The loop state of `__chunk`: the `chunks` list built so far, the
accumulated small paragraphs `current_para`, and `current_word_count`. -/
structure ChunkState where
  chunks : List (List String)
  current_para : List (List String)
  current_word_count : Nat
deriving DecidableEq, Repr

/-- The `chunks.append(' '.join(current_para)); current_para = [];
current_word_count = 0` statement of `__chunk`, guarded by
`if current_para:` as at lines 223–226 and 229–232 of
`src/scripts/vectordb.py`. -/
def flushAccum (s : ChunkState) : ChunkState :=
  if s.current_para ≠ [] then
    { chunks := s.chunks ++ [s.current_para.flatten], current_para := [],
      current_word_count := 0 }
  else s

/-- The three-way `if word_count < 100 / elif ≤ CHUNK_SIZE / else` statement of
the `__chunk` loop body (`src/scripts/vectordb.py` lines 218–233). -/
def chunkEmit (s : ChunkState) (para : List String) : ChunkState :=
  let word_count := para.length
  if word_count < 100 then
    -- small paragraph: accumulate
    { s with current_para := s.current_para ++ [para],
             current_word_count := s.current_word_count + word_count }
  else if word_count ≤ CHUNK_SIZE then
    -- medium paragraph: flush any accumulation, then emit the paragraph
    let s := flushAccum s
    { s with chunks := s.chunks ++ [para] }
  else
    -- large paragraph: flush any accumulation, then extend with the split
    let s := flushAccum s
    { s with chunks := s.chunks ++ split_large_paragraph para }

/-- One iteration of the `for para in paragraphs` loop of `__chunk`
(`src/scripts/vectordb.py` lines 208–233): first the
`if current_para and (current_word_count + word_count > CHUNK_SIZE)` flush,
then the three-way emit. -/
def chunkBody (s : ChunkState) (para : List String) : ChunkState :=
  chunkEmit
    (if s.current_para ≠ [] ∧ s.current_word_count + para.length > CHUNK_SIZE then
      { chunks := s.chunks ++ [s.current_para.flatten], current_para := [],
        current_word_count := 0 }
    else s) para

/-- `VectorDatabase.__chunk` (`src/scripts/vectordb.py` lines 172–238) at word
level.  `[p.strip() for p in text.split('\n\n') if p.strip()]` keeps exactly
the paragraphs containing at least one word, i.e. those with a non-empty word
list; the loop is the fold of `chunkBody`; the trailing
`if current_para: chunks.append(' '.join(current_para))` is the final flush,
`chunkFinal`. -/
def chunkFinal (final : ChunkState) : List (List String) :=
  if final.current_para ≠ [] then final.chunks ++ [final.current_para.flatten]
  else final.chunks

/-- `VectorDatabase.__chunk`: paragraph filter, loop fold, final flush. -/
def chunk (paragraphs : List (List String)) : List (List String) :=
  chunkFinal ((paragraphs.filter (fun p => p ≠ [])).foldl chunkBody ⟨[], [], 0⟩)

/-! ### Chunker lemmas -/

/-- The words held by a chunker state: the chunks emitted so far followed by
the pending accumulation. -/
def ChunkState.words (s : ChunkState) : List String :=
  s.chunks.flatten ++ s.current_para.flatten

theorem sliceGo_flatten (t : Nat) (ht : 0 < t) :
    ∀ (fuel : Nat) (l : List String), l.length ≤ fuel →
      (sliceGo t fuel l).flatten = l := by
  intro fuel
  induction fuel with
  | zero =>
    intro l hl
    cases l with
    | nil => rfl
    | cons w ws => simp at hl
  | succ n ih =>
    intro l hl
    cases l with
    | nil => rfl
    | cons w ws =>
      have hlt : ((w :: ws).drop t).length ≤ n := by
        simp only [List.length_drop, List.length_cons]
        simp only [List.length_cons] at hl
        omega
      simp [sliceGo, ih _ hlt]

/-- In the large-paragraph branch (`word_count > CHUNK_SIZE`) the computed
`target_size` is at least 1, so the slice loop partitions the paragraph. -/
theorem split_target_pos (n : Nat) (hn : CHUNK_SIZE < n) :
    0 < n / ((n + CHUNK_SIZE - 1) / CHUNK_SIZE) := by
  have hden : 0 < (n + CHUNK_SIZE - 1) / CHUNK_SIZE := by
    simp only [CHUNK_SIZE] at *
    omega
  have hle : (n + CHUNK_SIZE - 1) / CHUNK_SIZE ≤ n := by
    simp only [CHUNK_SIZE] at *
    omega
  exact Nat.div_pos hle hden

/-- Splitting a large paragraph loses, duplicates and reorders no word. -/
theorem split_large_paragraph_flatten (p : List String) (hp : CHUNK_SIZE < p.length) :
    (split_large_paragraph p).flatten = p := by
  have ht := split_target_pos p.length hp
  exact sliceGo_flatten _ ht _ _ le_rfl

theorem flushAccum_words (s : ChunkState) : (flushAccum s).words = s.words := by
  unfold flushAccum ChunkState.words
  by_cases h : s.current_para ≠ []
  · simp [h]
  · simp at h
    simp [h]

theorem flushAccum_current (s : ChunkState) : (flushAccum s).current_para = [] := by
  unfold flushAccum
  by_cases h : s.current_para ≠ []
  · simp [h]
  · simp at h
    simp [h]

theorem chunkEmit_words (s : ChunkState) (para : List String) :
    (chunkEmit s para).words = s.words ++ para := by
  unfold chunkEmit
  by_cases h2 : para.length < 100
  · simp [h2, ChunkState.words]
  · by_cases h3 : para.length ≤ CHUNK_SIZE
    · have := flushAccum_words s
      have hc := flushAccum_current s
      simp only [h2, h3, if_false, if_true, ChunkState.words] at *
      simp [hc, ← this]
    · have hp : CHUNK_SIZE < para.length := Nat.lt_of_not_le h3
      have := flushAccum_words s
      have hc := flushAccum_current s
      simp only [h2, h3, if_false, ChunkState.words] at *
      simp [hc, ← this, split_large_paragraph_flatten para hp]

/-- Loop invariant for `__chunk`: one iteration moves the words of `para` to
the end of the state's words, touching nothing else. -/
theorem chunkBody_words (s : ChunkState) (para : List String) :
    (chunkBody s para).words = s.words ++ para := by
  unfold chunkBody
  by_cases h1 : s.current_para ≠ [] ∧ s.current_word_count + para.length > CHUNK_SIZE
  · rw [if_pos h1, chunkEmit_words]
    simp [ChunkState.words]
  · rw [if_neg h1, chunkEmit_words]

theorem chunkFold_words (paras : List (List String)) :
    ∀ s : ChunkState,
      (paras.foldl chunkBody s).words = s.words ++ paras.flatten := by
  induction paras with
  | nil => intro s; simp
  | cons p ps ih =>
    intro s
    simp only [List.foldl_cons, List.flatten_cons]
    rw [ih (chunkBody s p), chunkBody_words s p]
    simp [List.append_assoc]

/-- Dropping word-less paragraphs drops no words. -/
theorem flatten_filter_nonempty (l : List (List String)) :
    (l.filter (fun p => p ≠ [])).flatten = l.flatten := by
  induction l with
  | nil => rfl
  | cons p ps ih =>
    simp only [ne_eq, decide_not] at ih
    by_cases hp : p = []
    · simp [hp, ih]
    · simp [hp, ih]

theorem chunkFinal_flatten (s : ChunkState) : (chunkFinal s).flatten = s.words := by
  unfold chunkFinal ChunkState.words
  by_cases h : s.current_para ≠ []
  · simp [h]
  · simp at h
    simp [h]

/-! ### Claim C5: chunk coverage -/

/-- **C5.**  For every input text `T`, concatenating in order all chunks
produced by the chunker from `T` yields exactly the word sequence of `T`
(word sequences compared after whitespace normalization): no word is dropped,
duplicated, or reordered.  Here `paragraphs` is the paragraph decomposition
of `T` (each paragraph its word list) and the word sequence of `T` is its
flatten. -/
theorem C5_chunk_coverage (paragraphs : List (List String)) :
    (chunk paragraphs).flatten = paragraphs.flatten := by
  unfold chunk
  rw [chunkFinal_flatten, chunkFold_words, flatten_filter_nonempty]
  simp [ChunkState.words]

/-! ### Claim C6: large-paragraph split arity -/

set_option maxRecDepth 20000 in
/-- **C6** fails on the code: a paragraph of 1001 words (`CHUNK_SIZE = 1000`)
is split into 3 pieces of sizes 500, 500 and 1, although
`ceil(1001 / CHUNK_SIZE) = 2`.  The code computes
`target_size = total_words // num_chunks = 500` and the slice loop then emits
`ceil(total_words / target_size) = 3` pieces, contradicting the claimed count
`ceil(word_count / CHUNK_SIZE)` and the function's own intent of
`num_chunks` roughly equal pieces. -/
theorem C6_split_large_paragraph_failing :
    (split_large_paragraph (List.replicate 1001 "w")).map List.length = [500, 500, 1]
      ∧ (1001 + CHUNK_SIZE - 1) / CHUNK_SIZE = 2 := by
  constructor
  · decide
  · decide

/-! ## Similarity (`src/scripts/similarity.py`, `src/scripts/cosine_similarity.py`)

`similarity_score(query_embedding, vector)` returns
`np.dot(query_embedding, vector) / (np.linalg.norm(query_embedding) * np.linalg.norm(vector))`
with no guard on the denominator (`cosine_similarity` in
`src/scripts/cosine_similarity.py` is the identical expression).  Floats are
modelled as reals. -/

namespace np

/-- `np.dot` on float vectors: the sum of coordinatewise products. -/
noncomputable def dot (a b : List ℝ) : ℝ := (List.zipWith (· * ·) a b).sum

namespace linalg

/-- `np.linalg.norm`: the Euclidean norm. -/
noncomputable def norm (v : List ℝ) : ℝ := Real.sqrt (dot v v)

end linalg

end np

/-- `similarity_score` (`src/scripts/similarity.py` lines 3–7), in exact real
arithmetic (Lean's real division, under which `x / 0 = 0`). -/
noncomputable def similarity_score (query_embedding vector : List ℝ) : ℝ :=
  np.dot query_embedding vector
    / (np.linalg.norm query_embedding * np.linalg.norm vector)

/-- The same expression under IEEE float semantics, where the NaN outcome is
made explicit: `none` stands for NaN.  The division's denominator is the
product of the norms; when it is zero the numerator `np.dot a b` is
necessarily also zero in exact arithmetic (a real vector of zero norm is the
zero vector — see `C2_zero_norm_nan`), so the float division is `0.0 / 0.0`,
which IEEE 754 defines as NaN. -/
noncomputable def similarity_scoreF (query_embedding vector : List ℝ) : Option ℝ :=
  if np.linalg.norm query_embedding * np.linalg.norm vector = 0 then none
  else some (np.dot query_embedding vector
    / (np.linalg.norm query_embedding * np.linalg.norm vector))

/-! ### Similarity lemmas -/

theorem dot_cons (x y : ℝ) (xs ys : List ℝ) :
    np.dot (x :: xs) (y :: ys) = x * y + np.dot xs ys := by
  simp [np.dot]

theorem dot_self_nonneg (v : List ℝ) : 0 ≤ np.dot v v := by
  induction v with
  | nil => simp [np.dot]
  | cons x xs ih =>
    simp only [np.dot, List.zipWith_cons_cons, List.sum_cons] at *
    nlinarith [mul_self_nonneg x]

/-- Cauchy–Schwarz for the list dot product, in squared form. -/
theorem dot_sq_le (a : List ℝ) :
    ∀ b : List ℝ, (np.dot a b) ^ 2 ≤ np.dot a a * np.dot b b := by
  induction a with
  | nil => intro b; simp [np.dot]
  | cons x xs ih =>
    intro b
    cases b with
    | nil => simp [np.dot]
    | cons y ys =>
      have h := ih ys
      have hp := dot_self_nonneg xs
      have hq := dot_self_nonneg ys
      rw [dot_cons, dot_cons, dot_cons]
      rcases eq_or_lt_of_le hq with hq0 | hqpos
      · have h2 : (np.dot xs ys) ^ 2 = 0 := by
          have hle : (np.dot xs ys) ^ 2 ≤ 0 := by rw [← hq0] at h; nlinarith
          exact le_antisymm hle (sq_nonneg _)
        have hd : np.dot xs ys = 0 := by
          exact pow_eq_zero_iff (two_ne_zero) |>.mp h2
        rw [hd, ← hq0]
        nlinarith [mul_nonneg hp (mul_self_nonneg y)]
      · nlinarith [sq_nonneg (x * np.dot ys ys - y * np.dot xs ys),
          mul_nonneg hq (sub_nonneg.mpr h),
          mul_nonneg (mul_self_nonneg y) (sub_nonneg.mpr h)]

/-- Cauchy–Schwarz: the dot product is bounded by the product of norms. -/
theorem abs_dot_le (a b : List ℝ) :
    |np.dot a b| ≤ np.linalg.norm a * np.linalg.norm b := by
  have h := dot_sq_le a b
  have ha := dot_self_nonneg a
  calc |np.dot a b| = Real.sqrt ((np.dot a b) ^ 2) := (Real.sqrt_sq_eq_abs _).symm
    _ ≤ Real.sqrt (np.dot a a * np.dot b b) := Real.sqrt_le_sqrt h
    _ = np.linalg.norm a * np.linalg.norm b := Real.sqrt_mul ha _

/-! ### Claim C2: zero-norm similarity -/

/-- **C2** fails on the code: `similarity_score` has no zero-norm guard, and
at `query_embedding = [0.0]`, `vector = [1.0]` it computes `0.0 / 0.0`
(the second conjunct shows the numerator is also zero), which IEEE 754
evaluates to NaN — here `similarity_scoreF ... = none`.  The NaN is returned
to the caller: nothing fails and no sentinel is substituted. -/
theorem C2_zero_norm_nan :
    similarity_scoreF [(0 : ℝ)] [(1 : ℝ)] = none
      ∧ np.dot [(0 : ℝ)] [(1 : ℝ)] = 0 := by
  have hn : np.linalg.norm [(0 : ℝ)] = 0 := by
    simp [np.linalg.norm, np.dot]
  constructor
  · simp [similarity_scoreF, hn]
  · simp [np.dot]

/-! ### Claim C7: similarity bounds -/

/-- **C7.**  For all equal-dimension vectors `a` and `b`, each of non-zero
norm, `-1 ≤ similarity_score a b ≤ 1`, and `similarity_score a a = 1` — in
exact arithmetic, as computed by the code. -/
theorem C7_similarity_bounds (a b : List ℝ) (hab : a.length = b.length)
    (ha : np.linalg.norm a ≠ 0) (hb : np.linalg.norm b ≠ 0) :
    -1 ≤ similarity_score a b ∧ similarity_score a b ≤ 1
      ∧ similarity_score a a = 1 := by
  have hna : 0 < np.linalg.norm a :=
    lt_of_le_of_ne (Real.sqrt_nonneg _) (Ne.symm ha)
  have hnb : 0 < np.linalg.norm b :=
    lt_of_le_of_ne (Real.sqrt_nonneg _) (Ne.symm hb)
  have hpos : 0 < np.linalg.norm a * np.linalg.norm b := mul_pos hna hnb
  have habs := abs_dot_le a b
  refine ⟨?_, ?_, ?_⟩
  · rw [similarity_score, le_div_iff₀ hpos]
    have := neg_abs_le (np.dot a b)
    nlinarith
  · rw [similarity_score, div_le_one hpos]
    exact le_trans (le_abs_self _) habs
  · have hda : np.dot a a ≠ 0 := by
      intro h0
      apply ha
      rw [np.linalg.norm, h0, Real.sqrt_zero]
    rw [similarity_score, np.linalg.norm, Real.mul_self_sqrt (dot_self_nonneg a)]
    exact div_self hda

/-- Witness for C7 at `a = [1, 0]`, `b = [0, 1]`. -/
theorem C7_similarity_bounds_witness :
    -1 ≤ similarity_score [(1 : ℝ), 0] [(0 : ℝ), 1]
      ∧ similarity_score [(1 : ℝ), 0] [(0 : ℝ), 1] ≤ 1
      ∧ similarity_score [(1 : ℝ), 0] [(1 : ℝ), 0] = 1 := by
  have ha : np.linalg.norm [(1 : ℝ), 0] = 1 := by
    simp [np.linalg.norm, np.dot]
  have hb : np.linalg.norm [(0 : ℝ), 1] = 1 := by
    simp [np.linalg.norm, np.dot]
  exact C7_similarity_bounds [(1 : ℝ), 0] [(0 : ℝ), 1] rfl
    (by rw [ha]; exact one_ne_zero) (by rw [hb]; exact one_ne_zero)

/-! ## The vector store (`src/scripts/vectordb.py`, class `VectorDatabase`)

The persistent state consists of the SQLite `VECTORS` table (one row per
chunk: `id = filename#chunk_id`, `filename`, `chunk_id`, `embedding BLOB`)
and two blob directories: `data/chunks/{chunk_id}.txt` holding chunk text and
`data/raw/{filename}` holding the original text.  The embedding blob is
opaque to the store (`pickle.dumps`/`pickle.loads` round-trip), so the store
is parametric in the embedding payload type `V`; `search` instantiates
`V := List ℝ`. -/

/-- One row of the `VECTORS` table.  The `id` column is the derived
`f"{filename}#{chunk_id}"` (`VectorRecord.id`). -/
structure VectorRecord (V : Type) where
  chunk_id : String
  filename : String
  embedding : V
deriving DecidableEq, Repr

/-- The `id TEXT PRIMARY KEY` column: `filename#chunk_id`. -/
def VectorRecord.id {V : Type} (r : VectorRecord V) : String :=
  r.filename ++ "#" ++ r.chunk_id

/-- The store state: `VECTORS` rows in table order, the chunk-text blobs of
`data/chunks` keyed by chunk identifier, and the raw-text blobs of
`data/raw` keyed by document name. -/
structure DB (V : Type) where
  index : List (VectorRecord V)
  chunkBlobs : List (String × List String)
  rawBlobs : List (String × List (List String))
deriving DecidableEq, Repr

/-- `open(path, 'w').write(val)`: create the file, or truncate and overwrite
it if it already exists. -/
def writeBlob {β : Type} (store : List (String × β)) (key : String) (val : β) :
    List (String × β) :=
  if store.any (fun b => b.1 = key) then
    store.map (fun b => if b.1 = key then (key, val) else b)
  else store ++ [(key, val)]

/-- `open(path, 'r').read()`: `none` is `FileNotFoundError`. -/
def readBlob {β : Type} (store : List (String × β)) (key : String) : Option β :=
  (store.find? (fun b => b.1 = key)).map (fun b => b.2)

/-- `VectorDatabase.put` (`src/scripts/vectordb.py` lines 78–113).
`embed` is the external `Embedder.embed` collaborator and `ids` the
`uuid.uuid4()` supply, one identifier consumed per loop iteration.  Steps, in
source order: the `SELECT COUNT(*) ... WHERE filename = ?` existence check
with early return; the raw-text write; chunking; embedding; then the
`for chunk, embedding in zip(chunks, embeddings)` loop, each iteration
writing one chunk blob and inserting one row.  Note `zip` silently truncates
to the shorter of its arguments. -/
def put {V : Type} (embed : List (List String) → List V) (ids : List String)
    (db : DB V) (filename : String) (text : List (List String)) : DB V :=
  if db.index.any (fun r => r.filename = filename) then db
  else
    let db1 : DB V := { db with rawBlobs := writeBlob db.rawBlobs filename text }
    let chunks := chunk text
    let embeddings := embed chunks
    ((chunks.zip embeddings).zip ids).foldl
      (fun d ce =>
        { d with
          chunkBlobs := writeBlob d.chunkBlobs ce.2 ce.1.1,
          index := d.index ++ [⟨ce.2, filename, ce.1.2⟩] }) db1

/-- `VectorDatabase.delete` (`src/scripts/vectordb.py` lines 115–139): gather
the `chunk_id`s of the rows with this `filename`, remove those chunk files
(each guarded by `os.path.exists`, which the filter models), remove the raw
file likewise, then `DELETE FROM VECTORS WHERE filename = ?`. -/
def delete {V : Type} (db : DB V) (filename : String) : DB V :=
  let chunk_ids :=
    (db.index.filter (fun r => r.filename = filename)).map (fun r => r.chunk_id)
  { index := db.index.filter (fun r => ¬ r.filename = filename),
    chunkBlobs := db.chunkBlobs.filter (fun b => ¬ b.1 ∈ chunk_ids),
    rawBlobs := db.rawBlobs.filter (fun b => ¬ b.1 = filename) }

/-! ### The search pipeline (`VectorDatabase.search`, lines 141–170)

`sorted(zip(similarities, rows), key=lambda x: x[0], reverse=True)` is
Python's stable sort: non-increasing in the key, equal-key elements in their
original relative order.  A stable sort's output is uniquely determined by
those two properties, so we model it by a stable descending insertion sort
(`sortDesc`), which inserts each earlier element before the first
later-scanned element of less-or-equal key. -/

noncomputable def insertDesc {β : Type} (x : ℝ × β) : List (ℝ × β) → List (ℝ × β)
  | [] => [x]
  | y :: ys => if y.1 ≤ x.1 then x :: y :: ys else y :: insertDesc x ys

noncomputable def sortDesc {β : Type} : List (ℝ × β) → List (ℝ × β)
  | [] => []
  | x :: xs => insertDesc x (sortDesc xs)

/-- Lines 153–160 of `search`: embed the query (`embed([query])[0]`; the
`getD` default is unreachable under the provider contract of one vector per
input), `SELECT chunk_id, embedding FROM VECTORS` in table order, unpickle,
and score every row against the query: `zip(similarities, rows)`. -/
noncomputable def scoredRows (embed : List (List String) → List (List ℝ))
    (db : DB (List ℝ)) (query : List String) : List (ℝ × (String × List ℝ)) :=
  let query_embedding := (embed [query]).getD 0 []
  let rows := db.index.map (fun r => (r.chunk_id, r.embedding))
  (rows.map (fun row => similarity_score query_embedding row.2)).zip rows

/-- `VectorDatabase.search`: the scored rows sorted by descending similarity,
each yielded with the content of its chunk file. -/
noncomputable def search (embed : List (List String) → List (List ℝ))
    (db : DB (List ℝ)) (query : List String) : List (ℝ × Option (List String)) :=
  (sortDesc (scoredRows embed db query)).map
    (fun sr => (sr.1, readBlob db.chunkBlobs sr.2.1))

/-- `search` with the store state threaded explicitly: the body executes only
reads (`SELECT`, `pickle.loads`, chunk-file `open(..., 'r')`), so the final
state is the input state.  Generator abandonment only shortens the yielded
prefix; it performs no further state action. -/
noncomputable def searchOp (embed : List (List String) → List (List ℝ))
    (db : DB (List ℝ)) (query : List String) :
    DB (List ℝ) × List (ℝ × Option (List String)) :=
  (db, (sortDesc (scoredRows embed db query)).map
    (fun sr => (sr.1, readBlob db.chunkBlobs sr.2.1)))

/-- Modelled from the spec: §4.1 specifies
`search(query: string, k: optional int)` where "if `k` is given, truncate to
the top `k`; if omitted, return the full ranked sequence".  The store variant
under `src/` implements only the `k`-omitted form (`search(self, query)`,
`src/scripts/vectordb.py` line 141); the optional-`k` truncation exists only
in the repository's other historical variant, which is not under `src/`, so
it is modelled here from the spec's words on top of the embedded `search`. -/
noncomputable def search_k (embed : List (List String) → List (List ℝ))
    (db : DB (List ℝ)) (query : List String) (k : Option Nat) :
    List (ℝ × Option (List String)) :=
  match k with
  | some n => (search embed db query).take n
  | none => search embed db query

/-- The record/blob correspondence of the spec's Vector Record invariant:
chunk identifiers are unique on each side, and the identifiers present agree
— i.e. the map from Vector Records to chunk blobs through the chunk
identifier is one-to-one. -/
def Consistent {V : Type} (db : DB V) : Prop :=
  (db.index.map (fun r => r.chunk_id)).Nodup
    ∧ (db.chunkBlobs.map (fun b => b.1)).Nodup
    ∧ ∀ cid, cid ∈ db.index.map (fun r => r.chunk_id)
        ↔ cid ∈ db.chunkBlobs.map (fun b => b.1)

/-! ### Sort lemmas -/

theorem mem_insertDesc {β : Type} (x a : ℝ × β) :
    ∀ l : List (ℝ × β), a ∈ insertDesc x l ↔ a = x ∨ a ∈ l := by
  intro l
  induction l with
  | nil => simp [insertDesc]
  | cons y ys ih =>
    by_cases h : y.1 ≤ x.1
    · simp [insertDesc, h]
    · simp only [insertDesc, if_neg h, List.mem_cons, ih]
      tauto

theorem pairwise_insertDesc {β : Type} (x : ℝ × β) :
    ∀ l : List (ℝ × β), List.Pairwise (fun p q => q.1 ≤ p.1) l →
      List.Pairwise (fun p q => q.1 ≤ p.1) (insertDesc x l) := by
  intro l
  induction l with
  | nil => intro _; simp [insertDesc]
  | cons y ys ih =>
    intro h
    rw [List.pairwise_cons] at h
    by_cases hle : y.1 ≤ x.1
    · rw [insertDesc, if_pos hle, List.pairwise_cons]
      refine ⟨?_, List.pairwise_cons.mpr h⟩
      intro z hz
      rcases List.mem_cons.mp hz with rfl | hz
      · exact hle
      · exact le_trans (h.1 z hz) hle
    · rw [insertDesc, if_neg hle, List.pairwise_cons]
      refine ⟨?_, ih h.2⟩
      intro z hz
      rcases (mem_insertDesc x z ys).mp hz with rfl | hz
      · exact le_of_lt (lt_of_not_le hle)
      · exact h.1 z hz

theorem sortDesc_pairwise {β : Type} :
    ∀ l : List (ℝ × β), List.Pairwise (fun p q => q.1 ≤ p.1) (sortDesc l) := by
  intro l
  induction l with
  | nil => simp [sortDesc]
  | cons x xs ih => exact pairwise_insertDesc x (sortDesc xs) ih

/-- Inserting `x` skips only elements of strictly greater key, so the
subsequence at any fixed key `s` either gains `x` at its front (when `x`
scores `s`) or is untouched: the stability law of the insertion. -/
theorem filter_insertDesc {β : Type} (x : ℝ × β) (s : ℝ) :
    ∀ l : List (ℝ × β),
      (insertDesc x l).filter (fun p => p.1 = s)
        = if x.1 = s then x :: l.filter (fun p => p.1 = s)
          else l.filter (fun p => p.1 = s) := by
  intro l
  induction l with
  | nil =>
    by_cases hx : x.1 = s
    · simp [insertDesc, hx]
    · simp [insertDesc, hx]
  | cons y ys ih =>
    by_cases hle : y.1 ≤ x.1
    · rw [insertDesc, if_pos hle]
      by_cases hx : x.1 = s
      · simp [List.filter_cons, hx]
      · simp [List.filter_cons, hx]
    · have hlt : x.1 < y.1 := lt_of_not_le hle
      rw [insertDesc, if_neg hle]
      by_cases hy : y.1 = s
      · have hx : ¬ x.1 = s := by
          intro he
          rw [he, ← hy] at hlt
          exact lt_irrefl _ hlt
        simp [List.filter_cons, hy, ih, hx]
      · simp only [List.filter_cons]
        by_cases hx : x.1 = s
        · simp [hy, ih, hx]
        · simp [hy, ih, hx]

/-- Stability of the modelled sort: for every key `s`, the elements of key
`s` appear in the sorted output exactly as they appeared in the input. -/
theorem sortDesc_filter {β : Type} (s : ℝ) :
    ∀ l : List (ℝ × β),
      (sortDesc l).filter (fun p => p.1 = s) = l.filter (fun p => p.1 = s) := by
  intro l
  induction l with
  | nil => simp [sortDesc]
  | cons x xs ih =>
    rw [sortDesc, filter_insertDesc]
    by_cases hx : x.1 = s
    · simp [List.filter_cons, hx, ih]
    · simp [List.filter_cons, hx, ih]

theorem insertDesc_length {β : Type} (x : ℝ × β) :
    ∀ l : List (ℝ × β), (insertDesc x l).length = l.length + 1 := by
  intro l
  induction l with
  | nil => simp [insertDesc]
  | cons y ys ih =>
    by_cases h : y.1 ≤ x.1
    · simp [insertDesc, h]
    · simp [insertDesc, h, ih]

theorem sortDesc_length {β : Type} :
    ∀ l : List (ℝ × β), (sortDesc l).length = l.length := by
  intro l
  induction l with
  | nil => simp [sortDesc]
  | cons x xs ih => simp [sortDesc, insertDesc_length, ih]

/-! ### Consistency lemmas -/

theorem writeBlob_fresh {β : Type} (store : List (String × β)) (key : String) (val : β)
    (h : ¬ key ∈ store.map (fun b => b.1)) :
    writeBlob store key val = store ++ [(key, val)] := by
  unfold writeBlob
  rw [if_neg]
  intro hc
  rcases List.any_eq_true.mp hc with ⟨b, hb, hbe⟩
  exact h (List.mem_map.mpr ⟨b, hb, (of_decide_eq_true hbe).symm ▸ rfl⟩)

theorem zip_snd_sublist {α β : Type} :
    ∀ (a : List α) (b : List β), ((a.zip b).map Prod.snd).Sublist b := by
  intro a
  induction a with
  | nil => intro b; simp
  | cons x xs ih =>
    intro b
    cases b with
    | nil => simp
    | cons y ys => simpa using List.Sublist.cons₂ y (ih ys)

/-- One iteration of the `put` loop keeps the record/blob correspondence when
the inserted chunk identifier is fresh on both sides. -/
theorem putStep_consistent {V : Type} (d : DB V) (filename : String)
    (c : List String) (e : V) (cid : String) (hd : Consistent d)
    (h1 : ¬ cid ∈ d.index.map (fun r => r.chunk_id))
    (h2 : ¬ cid ∈ d.chunkBlobs.map (fun b => b.1)) :
    Consistent { d with
      chunkBlobs := writeBlob d.chunkBlobs cid c,
      index := d.index ++ [⟨cid, filename, e⟩] } := by
  obtain ⟨hn1, hn2, hiff⟩ := hd
  rw [writeBlob_fresh _ _ _ h2]
  refine ⟨?_, ?_, ?_⟩
  · rw [List.map_append]
    refine List.Nodup.append hn1 (by simp) ?_
    intro x hx hx2
    simp at hx2
    exact h1 (hx2 ▸ hx)
  · rw [List.map_append]
    refine List.Nodup.append hn2 (by simp) ?_
    intro x hx hx2
    simp at hx2
    exact h2 (hx2 ▸ hx)
  · intro x
    simp only [List.map_append, List.mem_append, List.map_cons, List.map_nil,
      List.mem_singleton]
    constructor
    · rintro (hx | hx)
      · exact Or.inl ((hiff x).mp hx)
      · exact Or.inr hx
    · rintro (hx | hx)
      · exact Or.inl ((hiff x).mpr hx)
      · simp [hx]

theorem putFold_consistent {V : Type} (filename : String) :
    ∀ (triples : List ((List String × V) × String)) (d : DB V),
      Consistent d → (triples.map (fun t => t.2)).Nodup →
      (∀ i ∈ triples.map (fun t => t.2),
        ¬ i ∈ d.index.map (fun r => r.chunk_id)
          ∧ ¬ i ∈ d.chunkBlobs.map (fun b => b.1)) →
      Consistent (triples.foldl
        (fun d ce =>
          { d with
            chunkBlobs := writeBlob d.chunkBlobs ce.2 ce.1.1,
            index := d.index ++ [⟨ce.2, filename, ce.1.2⟩] }) d) := by
  intro triples
  induction triples with
  | nil => intro d hd _ _; exact hd
  | cons t ts ih =>
    intro d hd hnodup hfresh
    simp only [List.map_cons, List.nodup_cons] at hnodup
    have hft := hfresh t.2 (List.mem_map.mpr ⟨t, List.mem_cons_self t ts, rfl⟩)
    simp only [List.foldl_cons]
    apply ih
    · exact putStep_consistent d filename t.1.1 t.1.2 t.2 hd hft.1 hft.2
    · exact hnodup.2
    · intro i hi
      have hif := hfresh i (by
        rcases List.mem_map.mp hi with ⟨x, hx, he⟩
        exact List.mem_map.mpr ⟨x, List.mem_cons_of_mem t hx, he⟩)
      have hit : i ≠ t.2 := by
        intro he
        exact hnodup.1 (he ▸ hi)
      rw [writeBlob_fresh _ _ _ hft.2]
      constructor
      · simp only [List.map_append, List.mem_append]
        rintro (hc | hc)
        · exact hif.1 hc
        · simp at hc
          exact hit hc
      · simp only [List.map_append, List.mem_append]
        rintro (hc | hc)
        · exact hif.2 hc
        · simp at hc
          exact hit hc

theorem delete_consistent {V : Type} (db : DB V) (filename : String)
    (hdb : Consistent db) : Consistent (delete db filename) := by
  obtain ⟨hn1, hn2, hiff⟩ := hdb
  have hinj := List.inj_on_of_nodup_map hn1
  refine ⟨?_, ?_, ?_⟩
  · simp only [delete]
    exact ((List.filter_sublist _).map _).nodup hn1
  · simp only [delete]
    exact ((List.filter_sublist _).map _).nodup hn2
  · intro x
    simp only [delete, List.mem_map, List.mem_filter]
    constructor
    · rintro ⟨r, ⟨hr, hrf⟩, rfl⟩
      have hx : r.chunk_id ∈ db.chunkBlobs.map (fun b => b.1) :=
        (hiff _).mp (List.mem_map.mpr ⟨r, hr, rfl⟩)
      rcases List.mem_map.mp hx with ⟨b, hb, hbe⟩
      refine ⟨b, ⟨hb, ?_⟩, hbe⟩
      simp only [decide_not, Bool.not_eq_eq_eq_not, Bool.not_true, decide_eq_false_iff_not]
      intro hmem
      rcases List.mem_map.mp hmem with ⟨r', hr', hre⟩
      rw [List.mem_filter] at hr'
      have : r' = r := hinj hr'.1 hr (by rw [hre, hbe])
      rw [this] at hr'
      simp only [decide_not, Bool.not_eq_eq_eq_not, Bool.not_true,
        decide_eq_false_iff_not] at hrf
      exact hrf (by simpa using hr'.2)
    · rintro ⟨b, ⟨hb, hbf⟩, rfl⟩
      have hx : b.1 ∈ db.index.map (fun r => r.chunk_id) :=
        (hiff _).mpr (List.mem_map.mpr ⟨b, hb, rfl⟩)
      rcases List.mem_map.mp hx with ⟨r, hr, hre⟩
      refine ⟨r, ⟨hr, ?_⟩, hre⟩
      simp only [decide_not, Bool.not_eq_eq_eq_not, Bool.not_true, decide_eq_false_iff_not]
      intro hrf
      simp only [decide_not, Bool.not_eq_eq_eq_not, Bool.not_true,
        decide_eq_false_iff_not] at hbf
      apply hbf
      rw [← hre]
      exact List.mem_map.mpr ⟨r, List.mem_filter.mpr ⟨hr, by simpa using hrf⟩, rfl⟩

/-! ### Claim C1: search ranking order and tie stability -/

/-- **C1.**  For every store state and query, the sequence returned by
`search` is non-increasing in similarity score, and for every score value the
results carrying that score appear in exactly the relative order in which the
underlying record scan (`SELECT chunk_id, embedding FROM VECTORS`) produced
them. -/
theorem C1_search_ranking (embed : List (List String) → List (List ℝ))
    (db : DB (List ℝ)) (query : List String) :
    List.Pairwise (fun p q => q.1 ≤ p.1) (search embed db query)
      ∧ ∀ s : ℝ,
        (sortDesc (scoredRows embed db query)).filter (fun p => p.1 = s)
          = (scoredRows embed db query).filter (fun p => p.1 = s) := by
  constructor
  · exact List.Pairwise.map _ (fun a b h => h) (sortDesc_pairwise _)
  · intro s
    exact sortDesc_filter s _

/-! ### Claim C3: idempotent put for an existing name -/

/-- **C3.**  If at least one Vector Record for `filename` is already in the
index, `put` is a no-op: the `SELECT COUNT(*)` guard returns before the raw
write, the chunking, the embedding call and the insert loop, so index, chunk
blobs, and raw blobs are all unchanged. -/
theorem C3_put_existing_noop {V : Type} (embed : List (List String) → List V)
    (ids : List String) (db : DB V) (filename : String) (text : List (List String))
    (h : ∃ r ∈ db.index, r.filename = filename) :
    put embed ids db filename text = db := by
  rcases h with ⟨r, hr, hname⟩
  unfold put
  rw [if_pos]
  exact List.any_eq_true.mpr ⟨r, hr, by simp [hname]⟩

/-- Witness for C3: a store already holding a record for `"a.txt"`. -/
theorem C3_put_existing_noop_witness :
    put (fun _ => []) [] (⟨[⟨"c1", "a.txt", ()⟩], [("c1", ["hello"])],
        [("a.txt", [["hello"]])]⟩ : DB Unit) "a.txt" [["x"]]
      = ⟨[⟨"c1", "a.txt", ()⟩], [("c1", ["hello"])], [("a.txt", [["hello"]])]⟩ :=
  C3_put_existing_noop _ _ _ _ _ ⟨⟨"c1", "a.txt", ()⟩, by simp, rfl⟩

/-! ### Claim C4: provider count mismatch is silently truncated -/

set_option maxRecDepth 20000 in
/-- **C4** fails on the code: `put` pairs chunks with embeddings by
`zip(chunks, embeddings)`, which silently truncates.  On a two-chunk text
(two 100-word paragraphs) with a provider returning a single vector, `put`
raises nothing and persists a partial chunk set: one Vector Record and one
chunk blob out of two chunks, with the raw blob already written — some of the
document is searchable, the rest silently missing. -/
theorem C4_put_partial_persist :
    (chunk [List.replicate 100 "a", List.replicate 100 "b"]).length = 2
      ∧ (put (fun _ => [()]) ["u1", "u2"] (⟨[], [], []⟩ : DB Unit) "doc.txt"
            [List.replicate 100 "a", List.replicate 100 "b"]).index.length = 1
      ∧ (put (fun _ => [()]) ["u1", "u2"] (⟨[], [], []⟩ : DB Unit) "doc.txt"
            [List.replicate 100 "a", List.replicate 100 "b"]).chunkBlobs.length = 1
      ∧ (put (fun _ => [()]) ["u1", "u2"] (⟨[], [], []⟩ : DB Unit) "doc.txt"
            [List.replicate 100 "a", List.replicate 100 "b"]).rawBlobs.length = 1 := by
  refine ⟨?_, ?_, ?_, ?_⟩ <;> decide

/-! ### Claim C8: optional top-k truncation -/

/-- **C8** (spec-modelled `k`).  With `k` supplied, the result is the first
`k` elements of the full descending-similarity ranking; with `k` omitted it
is the full ranking, i.e. exactly what the embedded `search` returns, which
scores every record of the store (the length equality). -/
theorem C8_search_topk (embed : List (List String) → List (List ℝ))
    (db : DB (List ℝ)) (query : List String) :
    (∀ n : Nat, search_k embed db query (some n)
        = (search_k embed db query none).take n)
      ∧ search_k embed db query none = search embed db query
      ∧ (search embed db query).length = db.index.length := by
  refine ⟨fun n => rfl, rfl, ?_⟩
  unfold search scoredRows
  rw [List.length_map, sortDesc_length, List.length_zip]
  simp

/-! ### Claim C9: the record/blob one-to-one correspondence is preserved -/

/-- **C9.**  Both `put` and `delete` preserve the invariant that chunk
identifiers are in one-to-one correspondence between the `VECTORS` index and
the chunk-text blobs.  For `put`, the supplied `uuid4` identifiers are
assumed pairwise distinct and absent from the store, which is the collision
freedom `uuid.uuid4()` provides. -/
theorem C9_put_delete_consistent {V : Type} (embed : List (List String) → List V)
    (ids : List String) (db : DB V) (filename : String) (text : List (List String))
    (hdb : Consistent db) (hids : ids.Nodup)
    (hfresh : ∀ i ∈ ids, ¬ i ∈ db.index.map (fun r => r.chunk_id)
      ∧ ¬ i ∈ db.chunkBlobs.map (fun b => b.1)) :
    Consistent (put embed ids db filename text)
      ∧ Consistent (delete db filename) := by
  refine ⟨?_, delete_consistent db filename hdb⟩
  unfold put
  by_cases h : db.index.any (fun r => r.filename = filename)
  · rw [if_pos h]
    exact hdb
  · rw [if_neg h]
    apply putFold_consistent
    · exact hdb
    · exact (zip_snd_sublist _ ids).nodup hids
    · intro i hi
      exact hfresh i ((zip_snd_sublist _ ids).subset hi)

/-- Witness for C9: an empty store, two fresh identifiers, a one-chunk
document. -/
theorem C9_put_delete_consistent_witness :
    Consistent (put (fun cs => cs.map (fun _ => ())) ["u1", "u2"]
        (⟨[], [], []⟩ : DB Unit) "a.txt" [["hi"]])
      ∧ Consistent (delete (⟨[], [], []⟩ : DB Unit) "a.txt") :=
  C9_put_delete_consistent _ _ _ _ _ (by simp [Consistent]) (by decide) (by simp)

/-! ### Claim C10: search does not mutate the store -/

/-- **C10.**  `search` executes only reads; with the state threaded
explicitly, the state after the call (or after abandoning the generator at
any point, which only shortens the yielded prefix) is the input state, and
the yielded results are those of the pure pipeline. -/
theorem C10_search_no_mutation (embed : List (List String) → List (List ℝ))
    (db : DB (List ℝ)) (query : List String) :
    (searchOp embed db query).1 = db
      ∧ (searchOp embed db query).2 = search embed db query :=
  ⟨rfl, rfl⟩
